import Mathlib

/-!
Shallow embedding of the `mnist-rs` crate (src/lib.rs, src/error.rs):
an IDX-format decoder for MNIST label and image files.

Byte streams are modelled as `List Nat` (each element a byte value `< 256`);
file reads become pure functions on the remaining byte list, and the Rust
`Result<_, MnistError>` becomes `Except MnistError _`.  The `io` constructor
stands for any wrapped `std::io::Error` (in particular, a short read from
`read_exact`).  Machine `u32` values are `Nat`s below `2^32`; `from_be_bytes`
and the header reads are modelled byte-exactly.
-/

/-- `MnistError` from src/error.rs: I/O errors, a wrong magic number, or image
dimensions differing from the configured ones. -/
inductive MnistError where
  | io : MnistError
  | invalidMagicNumber (expected found : Nat) : MnistError
  | invalidImageDimensions (expected found : Nat × Nat) : MnistError
deriving DecidableEq, Repr

/-- The configured image width (`IMAGE_WIDTH` in src/lib.rs). -/
def IMAGE_WIDTH : Nat := 28

/-- The configured image height (`IMAGE_HEIGHT` in src/lib.rs). -/
def IMAGE_HEIGHT : Nat := 28

/-- `NPIXELS = IMAGE_WIDTH * IMAGE_HEIGHT`. -/
def NPIXELS : Nat := IMAGE_WIDTH * IMAGE_HEIGHT

/-- A decoded MNIST image: a row-major pixel buffer (`Image { pixels }` in
src/lib.rs).  The fixed length (`NPIXELS`, or width×height for a decoder
configured with other dimensions) is established by the decoder. -/
structure Image where
  pixels : List Nat
deriving DecidableEq, Repr

instance : Inhabited Image := ⟨⟨[]⟩⟩

/-- `read_u32`: take 4 bytes off the stream and combine them big-endian
(`u32::from_be_bytes`); `none` models the propagated I/O error when fewer
than 4 bytes remain. -/
def readU32 : List Nat → Option (Nat × List Nat)
  | b0 :: b1 :: b2 :: b3 :: rest =>
      some (((b0 * 256 + b1) * 256 + b2) * 256 + b3, rest)
  | _ => none

/-- Big-endian 4-byte encoding of a `u32` value, used to describe file
headers in theorem statements. -/
def beBytes (v : Nat) : List Nat :=
  [v / 2 ^ 24 % 256, v / 2 ^ 16 % 256, v / 2 ^ 8 % 256, v % 256]

/-- `read_labels` (src/lib.rs lines 83–100): read magic (expect 2049),
then an item count, then exactly that many label bytes via `read_exact`
(which fails with an I/O error when fewer bytes remain). -/
def read_labels (data : List Nat) : Except MnistError (List Nat) :=
  match readU32 data with
  | none => .error .io
  | some (magic, r1) =>
    if magic ≠ 2049 then .error (.invalidMagicNumber 2049 magic)
    else
      match readU32 r1 with
      | none => .error .io
      | some (n, r2) =>
        if n ≤ r2.length then .ok (r2.take n) else .error .io

/-- The record-reading loop of `read_images`: `n` times, `read_exact` a
block of `size` bytes into a fresh pixel buffer and push the image; a short
read is an immediate I/O error. -/
def readRecords (size : Nat) : Nat → List Nat → Except MnistError (List Image)
  | 0, _ => .ok []
  | n + 1, data =>
    if size ≤ data.length then
      match readRecords size n (data.drop size) with
      | .ok imgs => .ok (⟨data.take size⟩ :: imgs)
      | .error e => .error e
    else .error .io

/-- `read_images` (src/lib.rs lines 103–136), parametrised by the decoder's
configured width `W` and height `H` (the source fixes `W = H = 28` through
the `IMAGE_WIDTH`/`IMAGE_HEIGHT` constants): read magic (expect 2051), item
count, row count and column count, validate the declared dimensions against
the configured ones (reporting `found` as `(cols, rows)`), then read the
pixel blocks. -/
def read_images (W H : Nat) (data : List Nat) : Except MnistError (List Image) :=
  match readU32 data with
  | none => .error .io
  | some (magic, r1) =>
    if magic ≠ 2051 then .error (.invalidMagicNumber 2051 magic)
    else
      match readU32 r1 with
      | none => .error .io
      | some (n, r2) =>
        match readU32 r2 with
        | none => .error .io
        | some (rows, r3) =>
          match readU32 r3 with
          | none => .error .io
          | some (cols, r4) =>
            if rows ≠ H ∨ cols ≠ W then
              .error (.invalidImageDimensions (W, H) (cols, rows))
            else readRecords (W * H) n r4

/-- Split a flat list into `h` consecutive rows of `w` elements each: the
row-major reinterpretation underlying `as_2d_array`, `unflatten_image` and
the 2-D/flat view agreement. -/
def chunkRows (w : Nat) : Nat → List Nat → List (List Nat)
  | 0, _ => []
  | h + 1, l => l.take w :: chunkRows w h (l.drop w)

/-- `Image::as_u8_array`: the raw row-major pixel buffer, unchanged. -/
def Image.as_u8_array (img : Image) : List Nat := img.pixels

/-- `Image::as_2d_array` for a `W`×`H` decoder configuration: the source
reinterprets the flat `[u8; 784]` buffer as `[[u8; 28]; 28]` in place; row
`r` of the view is bytes `r*W .. r*W+W` of the flat buffer. -/
def Image.as_2d_array (W H : Nat) (img : Image) : List (List Nat) :=
  chunkRows W H img.pixels

/-- `flatten_image` (src/lib.rs lines 166–168): view a 28×28 2-D array as
the flat 784-byte row-major slice (the source reinterprets in place; the
model concatenates the rows, which is the same byte sequence). -/
def flatten_image (a : List (List Nat)) : List Nat := a.flatten

/-- `unflatten_image` (src/lib.rs lines 170–173): assert the slice has
length exactly 28·28 — modelled as returning `none` on the assertion
failure (a Rust panic) — and view it as a 28×28 2-D array. -/
def unflatten_image (l : List Nat) : Option (List (List Nat)) :=
  if l.length = 28 * 28 then some (chunkRows 28 28 l) else none

/-- The `Mnist` bundle (src/lib.rs): the four decoded sequences. -/
structure Mnist where
  train_images : List Image
  train_labels : List Nat
  test_images : List Image
  test_labels : List Nat
deriving DecidableEq, Repr

/-- Outcome of `Mnist::load`: success, a decode error, or a Rust panic from
a failed `assert!`. -/
inductive LoadResult where
  | ok (m : Mnist) : LoadResult
  | err (e : MnistError) : LoadResult
  | assertFailed : LoadResult
deriving DecidableEq, Repr

/-- `Mnist::load` (src/lib.rs lines 183–201), as a function of the contents
of the four files it opens (train labels, train images, test labels, test
images, in the source's read order).  After the four decodes it runs the
source's two asserts verbatim: `train_labels.len() == train_labels.len()`
(the self-comparison as written in the source) and
`test_labels.len() == test_images.len()`. -/
def Mnist.load (trainL trainI testL testI : List Nat) : LoadResult :=
  match read_labels trainL with
  | .error e => .err e
  | .ok train_labels =>
    match read_images IMAGE_WIDTH IMAGE_HEIGHT trainI with
    | .error e => .err e
    | .ok train_images =>
      match read_labels testL with
      | .error e => .err e
      | .ok test_labels =>
        match read_images IMAGE_WIDTH IMAGE_HEIGHT testI with
        | .error e => .err e
        | .ok test_images =>
          if train_labels.length = train_labels.length then
            if test_labels.length = test_images.length then
              .ok ⟨train_images, train_labels, test_images, test_labels⟩
            else .assertFailed
          else .assertFailed

/-!
Exact model of the IEEE-754 binary64 (`f64`) arithmetic used by
`Image::as_f64_array` (`p as f64 / 255.0`) and `Image::from_f64_array`
(`(f * 255.0) as u8`).  Every `f64` value arising here is a nonnegative
dyadic rational, represented as a pair `(m, s)` standing for `m / 2^s`.
Division and multiplication round the exact rational result to the nearest
53-bit significand, ties to even (the IEEE default); the quantities involved
stay far inside the normal range, so neither subnormals nor overflow arise
for byte inputs, and the `as u8` cast is Rust's saturating truncation
toward zero. -/

/-- Fuelled floor-log₂: `log2f fuel n = ⌊log2 n⌋` whenever `n ≤ fuel`
(structural recursion on the fuel, so it evaluates inside the kernel). -/
def log2f : Nat → Nat → Nat
  | 0, _ => 0
  | f + 1, n => if 2 ≤ n then log2f f (n / 2) + 1 else 0

/-- `⌊log2 n⌋` for `n ≥ 1`: the unique `L` with `2^L ≤ n < 2^(L+1)`. -/
def natLog2 (n : Nat) : Nat := log2f n n

/-- Fuelled ceiling-log₂ (structural recursion on the fuel). -/
def clog2f : Nat → Nat → Nat
  | 0, _ => 0
  | f + 1, n => if n ≤ 1 then 0 else clog2f f ((n + 1) / 2) + 1

/-- `⌈log2 n⌉` for `n ≥ 1`: the smallest `k` with `n ≤ 2^k`. -/
def natClog2 (n : Nat) : Nat := clog2f n n

/-- Round `a / n` to the nearest integer, ties to even. -/
def rneDiv (a n : Nat) : Nat :=
  let q := a / n
  let r := a % n
  if 2 * r < n then q
  else if n < 2 * r then q + 1
  else if q % 2 = 0 then q else q + 1

/-- `b as f64 / 255.0` for a byte `b`: the exact quotient `b / 255` rounded
to the nearest binary64.  For `b ≠ 0` the quotient lies in `[2^(-k1), 2^(1-k1))`
with `k1 = ⌈log2 (255/b)⌉`, so the rounded value is
`rne(b·2^(52+k1)/255) / 2^(52+k1)`, returned as (numerator, exponent). -/
def divF64by255 (b : Nat) : Nat × Nat :=
  if b = 0 then (0, 0)
  else
    let k1 := natClog2 ((b + 254) / b)
    (rneDiv (b * 2 ^ (52 + k1)) 255, 52 + k1)

/-- `(x * 255.0) as u8` for a nonnegative dyadic `x = m / 2^s`: the exact
product `m·255 / 2^s` is rounded to the nearest binary64 (exact already when
the integer `m·255` fits in 53 bits), then truncated toward zero and
saturated to `0..=255` (Rust float-to-int `as` cast). -/
def mulF64by255asU8 (m s : Nat) : Nat :=
  let y := m * 255
  if y = 0 then 0
  else
    let L := natLog2 y
    let v := if L ≤ 52 then y else rneDiv y (2 ^ (L - 52)) * 2 ^ (L - 52)
    min 255 (v / 2 ^ s)

/-- `Image::as_f64_array`: each pixel byte mapped through `/ 255.0`, as the
list of exact dyadic values of the resulting `f64`s. -/
def Image.as_f64_array (img : Image) : List (Nat × Nat) :=
  img.pixels.map divF64by255

/-- `Image::from_f64_array`: each (nonnegative dyadic) `f64` value mapped
through `(f * 255.0) as u8` into a pixel byte. -/
def Image.from_f64_array (fa : List (Nat × Nat)) : Image :=
  ⟨fa.map fun p => mulF64by255asU8 p.1 p.2⟩

instance {ε α : Type} [DecidableEq ε] [DecidableEq α] : DecidableEq (Except ε α) := fun x y =>
  match x, y with
  | .ok a, .ok b => if h : a = b then .isTrue (by rw [h]) else .isFalse (by simp [h])
  | .error a, .error b => if h : a = b then .isTrue (by rw [h]) else .isFalse (by simp [h])
  | .ok _, .error _ => .isFalse (by simp)
  | .error _, .ok _ => .isFalse (by simp)

/-! ### Helper lemmas -/

theorem readU32_beBytes (v : Nat) (rest : List Nat) (hv : v < 2 ^ 32) :
    readU32 (beBytes v ++ rest) = some (v, rest) := by
  simp only [beBytes, List.cons_append, List.nil_append, readU32, Option.some.injEq,
    Prod.mk.injEq]
  norm_num
  omega

/-- Reading `n` records of `size` bytes from a sufficiently long stream
yields the consecutive `size`-byte blocks, in stream order. -/
theorem readRecords_ok (size : Nat) :
    ∀ (n : Nat) (body : List Nat), n * size ≤ body.length →
      readRecords size n body =
        .ok ((List.range n).map fun i => ⟨(body.drop (i * size)).take size⟩) := by
  intro n
  induction n with
  | zero => intro body _; simp [readRecords]
  | succ n ih =>
    intro body hlen
    rw [Nat.succ_mul] at hlen
    have hs : size ≤ body.length := by omega
    have hrec : n * size ≤ (body.drop size).length := by
      rw [List.length_drop]; omega
    rw [readRecords, if_pos hs, ih _ hrec]
    rw [List.range_succ_eq_map, List.map_cons, List.map_map]
    refine congrArg Except.ok (List.cons_eq_cons.mpr ⟨by simp, ?_⟩)
    refine List.map_congr_left fun i _ => ?_
    simp only [Function.comp_apply, List.drop_drop, Image.mk.injEq]
    have : i * size + size = size + i * size := Nat.add_comm _ _
    rw [Nat.succ_mul, this]

/-- Reading `n` records of `size` bytes from a stream shorter than
`n * size` bytes fails with an I/O error. -/
theorem readRecords_short (size : Nat) :
    ∀ (n : Nat) (body : List Nat), body.length < n * size →
      readRecords size n body = .error .io := by
  intro n
  induction n with
  | zero => intro body h; simp at h
  | succ n ih =>
    intro body hlen
    rw [Nat.succ_mul] at hlen
    rw [readRecords]
    by_cases hs : size ≤ body.length
    · have hrec : (body.drop size).length < n * size := by
        rw [List.length_drop]; omega
      rw [if_pos hs, ih _ hrec]
    · rw [if_neg hs]

/-- Row `r` of the row-major chunking is the `w`-byte block starting at
offset `r * w`. -/
theorem chunkRows_getD (w : Nat) :
    ∀ (h r : Nat) (l : List Nat), r < h →
      (chunkRows w h l).getD r [] = (l.drop (r * w)).take w := by
  intro h
  induction h with
  | zero => intro r l hr; omega
  | succ h ih =>
    intro r l hr
    cases r with
    | zero => simp [chunkRows]
    | succ r =>
      rw [chunkRows, List.getD_cons_succ, ih r _ (by omega), List.drop_drop]
      have : w + r * w = Nat.succ r * w := by rw [Nat.succ_mul, Nat.add_comm]
      rw [this]

/-- Element `c` of the `w`-byte block at offset `a` is element `a + c` of
the underlying buffer (both sides defaulting to `0` past the end). -/
theorem getD_take_drop (l : List Nat) (a w c : Nat) (hc : c < w) :
    ((l.drop a).take w).getD c 0 = l.getD (a + c) 0 := by
  simp [List.getD_eq_getElem?_getD, List.getElem?_take, hc, List.getElem?_drop]

/-- Chunking the concatenation of rows of length `w` recovers the rows. -/
theorem chunkRows_flatten (w : Nat) :
    ∀ (rows : List (List Nat)), (∀ r ∈ rows, r.length = w) →
      chunkRows w rows.length rows.flatten = rows := by
  intro rows
  induction rows with
  | nil => intro _; rfl
  | cons r rs ih =>
    intro hall
    have hr : r.length = w := hall r (List.mem_cons_self r rs)
    rw [List.length_cons, List.flatten_cons, chunkRows,
      List.take_left' hr, List.drop_left' hr,
      ih fun x hx => hall x (List.mem_cons_of_mem r hx)]

/-! ### Claim theorems -/

set_option maxRecDepth 8192

/-- C1: for every valid image file (magic 2051, declared rows and columns
equal to the configured dimensions `H` and `W`, body of at least
`count × rows × cols` bytes), `read_images` returns `Ok` with a sequence
whose length equals the declared item count, where element `i`'s pixel
buffer is exactly bytes `i·(W·H) .. (i+1)·(W·H)` of the file body (each
exactly `W·H` bytes, row-major), in file order. -/
theorem read_images_valid_file (W H n : Nat) (body : List Nat)
    (hn : n < 2 ^ 32) (hH : H < 2 ^ 32) (hW : W < 2 ^ 32)
    (hlen : n * (W * H) ≤ body.length) :
    ∃ imgs : List Image,
      read_images W H (beBytes 2051 ++ beBytes n ++ beBytes H ++ beBytes W ++ body) =
        .ok imgs ∧
      imgs.length = n ∧
      (∀ i, i < n → imgs[i]? = some ⟨(body.drop (i * (W * H))).take (W * H)⟩) ∧
      (∀ i, i < n → ((body.drop (i * (W * H))).take (W * H)).length = W * H) := by
  refine ⟨(List.range n).map fun i => ⟨(body.drop (i * (W * H))).take (W * H)⟩, ?_, ?_, ?_, ?_⟩
  · simp only [read_images, List.append_assoc,
      readU32_beBytes 2051 _ (by norm_num), readU32_beBytes n _ hn,
      readU32_beBytes H _ hH, readU32_beBytes W _ hW]
    rw [if_neg (by simp), if_neg (by simp)]
    exact readRecords_ok (W * H) n body hlen
  · simp
  · intro i hi
    simp [List.getElem?_map, List.getElem?_range hi]
  · intro i hi
    rw [List.length_take, List.length_drop]
    have h1 : (i + 1) * (W * H) ≤ n * (W * H) :=
      Nat.mul_le_mul_right _ (by omega)
    rw [Nat.add_mul, Nat.one_mul] at h1
    omega

theorem read_images_valid_file_witness :
    (1 < 2 ^ 32 ∧ 2 < 2 ^ 32 ∧ 1 * (2 * 2) ≤ ([10, 20, 30, 40] : List Nat).length) ∧
    ∃ imgs : List Image,
      read_images 2 2 (beBytes 2051 ++ beBytes 1 ++ beBytes 2 ++ beBytes 2 ++ [10, 20, 30, 40]) =
        .ok imgs ∧
      imgs.length = 1 ∧
      (∀ i, i < 1 → imgs[i]? =
        some ⟨(([10, 20, 30, 40] : List Nat).drop (i * (2 * 2))).take (2 * 2)⟩) ∧
      (∀ i, i < 1 →
        ((([10, 20, 30, 40] : List Nat).drop (i * (2 * 2))).take (2 * 2)).length = 2 * 2) :=
  ⟨⟨by norm_num, by norm_num, by decide⟩,
    read_images_valid_file 2 2 1 [10, 20, 30, 40] (by norm_num) (by norm_num) (by norm_num)
      (by decide)⟩

/-- C2: for every valid label file (magic 2049, body of at least the declared
count of bytes), `read_labels` returns `Ok` with the first `count` body bytes
in file order (a sequence of length exactly the declared count); in
particular, on `[00 00 08 01][00 00 00 03][05 00 09]` it returns `[5, 0, 9]`. -/
theorem read_labels_valid_file (n : Nat) (body : List Nat)
    (hn : n < 2 ^ 32) (hlen : n ≤ body.length) :
    (read_labels (beBytes 2049 ++ beBytes n ++ body) = .ok (body.take n) ∧
      (body.take n).length = n) ∧
    read_labels [0, 0, 8, 1, 0, 0, 0, 3, 5, 0, 9] = .ok [5, 0, 9] := by
  refine ⟨⟨?_, by rw [List.length_take]; omega⟩, by decide⟩
  simp only [read_labels, List.append_assoc,
    readU32_beBytes 2049 _ (by norm_num), readU32_beBytes n _ hn]
  rw [if_neg (by simp), if_pos hlen]

theorem read_labels_valid_file_witness :
    (2 < 2 ^ 32 ∧ 2 ≤ ([7, 8, 9] : List Nat).length) ∧
    ((read_labels (beBytes 2049 ++ beBytes 2 ++ [7, 8, 9]) =
        .ok (([7, 8, 9] : List Nat).take 2) ∧
      (([7, 8, 9] : List Nat).take 2).length = 2) ∧
    read_labels [0, 0, 8, 1, 0, 0, 0, 3, 5, 0, 9] = .ok [5, 0, 9]) :=
  ⟨⟨by norm_num, by decide⟩, read_labels_valid_file 2 [7, 8, 9] (by norm_num) (by decide)⟩

/-- C5: an image file whose header declares magic 2051 but whose declared
`(rows, cols)` differ from the configured `(28, 28)` makes `read_images`
fail with `InvalidImageDimensions`, where `expected` is the `(width, height)`
pair `(28, 28)` and `found` is `(declared cols, declared rows)` — columns
first. -/
theorem read_images_dim_mismatch (n rows cols : Nat) (rest : List Nat)
    (hn : n < 2 ^ 32) (hr : rows < 2 ^ 32) (hc : cols < 2 ^ 32)
    (h : ¬(rows = 28 ∧ cols = 28)) :
    read_images 28 28
        (beBytes 2051 ++ beBytes n ++ beBytes rows ++ beBytes cols ++ rest) =
      .error (.invalidImageDimensions (28, 28) (cols, rows)) := by
  simp only [read_images, List.append_assoc,
    readU32_beBytes 2051 _ (by norm_num), readU32_beBytes n _ hn,
    readU32_beBytes rows _ hr, readU32_beBytes cols _ hc]
  rw [if_neg (by simp), if_pos (by tauto)]

theorem read_images_dim_mismatch_witness :
    (5 < 2 ^ 32 ∧ 30 < 2 ^ 32 ∧ 28 < 2 ^ 32 ∧ ¬((30 : Nat) = 28 ∧ (28 : Nat) = 28)) ∧
    read_images 28 28 (beBytes 2051 ++ beBytes 5 ++ beBytes 30 ++ beBytes 28 ++ [1, 2, 3]) =
      .error (.invalidImageDimensions (28, 28) (28, 30)) :=
  ⟨⟨by norm_num, by norm_num, by norm_num, by norm_num⟩,
    read_images_dim_mismatch 5 30 28 [1, 2, 3] (by norm_num) (by norm_num) (by norm_num)
      (by norm_num)⟩

/-- C6: a file with valid header fields but a body holding fewer bytes than
the declared count requires (`count` bytes for labels, `count × 28 × 28`
bytes for 28×28 images) makes the decode fail with an I/O error — no
shorter or partially-filled sequence is ever returned. -/
theorem truncated_body_io_error (n : Nat) (body : List Nat) (hn : n < 2 ^ 32) :
    (body.length < n →
      read_labels (beBytes 2049 ++ beBytes n ++ body) = .error .io) ∧
    (body.length < n * (28 * 28) →
      read_images 28 28 (beBytes 2051 ++ beBytes n ++ beBytes 28 ++ beBytes 28 ++ body) =
        .error .io) := by
  constructor
  · intro hshort
    simp only [read_labels, List.append_assoc,
      readU32_beBytes 2049 _ (by norm_num), readU32_beBytes n _ hn]
    rw [if_neg (by simp), if_neg (by omega)]
  · intro hshort
    simp only [read_images, List.append_assoc,
      readU32_beBytes 2051 _ (by norm_num), readU32_beBytes n _ hn,
      readU32_beBytes 28 _ (by norm_num)]
    rw [if_neg (by simp), if_neg (by simp)]
    exact readRecords_short (28 * 28) n body hshort

theorem truncated_body_io_error_witness :
    (2 < 2 ^ 32 ∧ ([9] : List Nat).length < 2 ∧ ([9] : List Nat).length < 2 * (28 * 28)) ∧
    (read_labels (beBytes 2049 ++ beBytes 2 ++ [9]) = .error .io ∧
      read_images 28 28 (beBytes 2051 ++ beBytes 2 ++ beBytes 28 ++ beBytes 28 ++ [9]) =
        .error .io) :=
  ⟨⟨by norm_num, by decide, by decide⟩,
    ⟨(truncated_body_io_error 2 [9] (by norm_num)).1 (by decide),
      (truncated_body_io_error 2 [9] (by norm_num)).2 (by decide)⟩⟩

/-- C7: an input whose first 4 bytes decode big-endian to `m` different from
the decoder's magic constant (2049 for `read_labels`, 2051 for `read_images`)
makes the decode fail with `InvalidMagicNumber{expected, found = m}`,
whatever the rest of the input holds — no records are returned. -/
theorem magic_mismatch (m W H : Nat) (rest : List Nat) (hm : m < 2 ^ 32) :
    (m ≠ 2049 →
      read_labels (beBytes m ++ rest) = .error (.invalidMagicNumber 2049 m)) ∧
    (m ≠ 2051 →
      read_images W H (beBytes m ++ rest) = .error (.invalidMagicNumber 2051 m)) := by
  constructor
  · intro hne
    simp only [read_labels, readU32_beBytes m _ hm]
    rw [if_pos hne]
  · intro hne
    simp only [read_images, readU32_beBytes m _ hm]
    rw [if_pos hne]

theorem magic_mismatch_witness :
    (7 < 2 ^ 32 ∧ (7 : Nat) ≠ 2049 ∧ (7 : Nat) ≠ 2051) ∧
    (read_labels (beBytes 7 ++ [1, 2, 3]) = .error (.invalidMagicNumber 2049 7) ∧
      read_images 28 28 (beBytes 7 ++ [1, 2, 3]) = .error (.invalidMagicNumber 2051 7)) :=
  ⟨⟨by norm_num, by norm_num, by norm_num⟩,
    ⟨(magic_mismatch 7 28 28 [1, 2, 3] (by norm_num)).1 (by norm_num),
      (magic_mismatch 7 28 28 [1, 2, 3] (by norm_num)).2 (by norm_num)⟩⟩

/-- C8: the 2-D view agrees elementwise with the byte view under row-major
indexing: for all `r < 28` and `c < 28`, element `c` of row `r` of
`as_2d_array` equals element `r*28 + c` of `as_u8_array`, with no
reordering or value change. -/
theorem as_2d_array_agrees_u8_array (img : Image) (r c : Nat)
    (hr : r < 28) (hc : c < 28) :
    ((Image.as_2d_array 28 28 img).getD r []).getD c 0 =
      img.as_u8_array.getD (r * 28 + c) 0 := by
  rw [Image.as_2d_array, Image.as_u8_array, chunkRows_getD 28 28 r img.pixels hr,
    getD_take_drop img.pixels (r * 28) 28 c hc]

theorem as_2d_array_agrees_u8_array_witness :
    (1 < 28 ∧ 2 < 28) ∧
    ((Image.as_2d_array 28 28 ⟨List.range 784⟩).getD 1 []).getD 2 0 =
      (Image.as_u8_array ⟨List.range 784⟩).getD (1 * 28 + 2) 0 :=
  ⟨⟨by norm_num, by norm_num⟩,
    as_2d_array_agrees_u8_array ⟨List.range 784⟩ 1 2 (by norm_num) (by norm_num)⟩

/-- C9: decoding the image file with magic 2051, count 1, rows 2, cols 2 and
body `[10,20,30,40]` (with the decoder configured for 2×2 images) yields
exactly one `Image` whose byte view is `[10,20,30,40]` and whose 2-D view is
`[[10,20],[30,40]]`. -/
theorem read_images_2x2_example :
    read_images 2 2 [0, 0, 8, 3, 0, 0, 0, 1, 0, 0, 0, 2, 0, 0, 0, 2, 10, 20, 30, 40] =
      .ok [⟨[10, 20, 30, 40]⟩] ∧
    Image.as_u8_array ⟨[10, 20, 30, 40]⟩ = [10, 20, 30, 40] ∧
    Image.as_2d_array 2 2 ⟨[10, 20, 30, 40]⟩ = [[10, 20], [30, 40]] := by
  decide

/-- The concatenation of rows of constant length `w` has `rows.length * w`
elements. -/
theorem flatten_length_const (w : Nat) :
    ∀ (rows : List (List Nat)), (∀ r ∈ rows, r.length = w) →
      rows.flatten.length = rows.length * w := by
  intro rows
  induction rows with
  | nil => intro _; simp
  | cons r rs ih =>
    intro hall
    rw [List.flatten_cons, List.length_append, List.length_cons,
      hall r (List.mem_cons_self r rs),
      ih fun x hx => hall x (List.mem_cons_of_mem r hx), Nat.succ_mul, Nat.add_comm]

/-- C10: `flatten_image` and `unflatten_image` are mutually inverse views of
the same bytes: for every 28×28 array `a`, `flatten_image a` has length 784
with element `r*28 + c` equal to `a[r][c]`, and `unflatten_image` recovers
`a` from it; `unflatten_image` rejects (assertion failure, modelled as
`none`) every input whose length is not exactly 784. -/
theorem flatten_unflatten_image_inverse (a : List (List Nat))
    (ha : a.length = 28) (hrow : ∀ r ∈ a, r.length = 28) :
    (flatten_image a).length = 784 ∧
    (∀ r c, r < 28 → c < 28 →
      (flatten_image a).getD (r * 28 + c) 0 = (a.getD r []).getD c 0) ∧
    unflatten_image (flatten_image a) = some a ∧
    (∀ l : List Nat, l.length ≠ 784 → unflatten_image l = none) := by
  have hlen : (flatten_image a).length = 784 := by
    rw [flatten_image, flatten_length_const 28 a hrow, ha]
  have hchunk : chunkRows 28 28 (flatten_image a) = a := by
    have h28 := chunkRows_flatten 28 a hrow
    rw [ha] at h28
    rw [flatten_image]
    exact h28
  refine ⟨hlen, ?_, ?_, ?_⟩
  · intro r c hr hc
    conv_rhs => rw [← hchunk]
    rw [chunkRows_getD 28 28 r _ hr, getD_take_drop _ (r * 28) 28 c hc]
  · rw [unflatten_image, if_pos (by omega), hchunk]
  · intro l hl
    rw [unflatten_image, if_neg (by omega)]

theorem flatten_unflatten_image_inverse_witness :
    ((List.replicate 28 (List.range 28)).length = 28 ∧
      ∀ r ∈ List.replicate 28 (List.range 28), r.length = 28) ∧
    ((flatten_image (List.replicate 28 (List.range 28))).length = 784 ∧
      (∀ r c, r < 28 → c < 28 →
        (flatten_image (List.replicate 28 (List.range 28))).getD (r * 28 + c) 0 =
          ((List.replicate 28 (List.range 28)).getD r []).getD c 0) ∧
      unflatten_image (flatten_image (List.replicate 28 (List.range 28))) =
        some (List.replicate 28 (List.range 28)) ∧
      (∀ l : List Nat, l.length ≠ 784 → unflatten_image l = none)) :=
  ⟨⟨by simp, fun r hr => by rw [List.eq_of_mem_replicate hr]; simp⟩,
    flatten_unflatten_image_inverse (List.replicate 28 (List.range 28)) (by simp)
      fun r hr => by rw [List.eq_of_mem_replicate hr]; simp⟩

/-- C3: normalizing a byte then denormalizing is exact — for every byte
`b < 256`, pushing `b` through `b as f64 / 255.0` and then
`(f * 255.0) as u8` (both modelled bit-exactly over IEEE-754 binary64)
returns `b`; consequently `Image::from_f64_array ∘ Image::as_f64_array`
reproduces the original pixel buffer exactly. -/
theorem normalize_denormalize_roundtrip :
    (∀ b, b < 256 →
      mulF64by255asU8 (divF64by255 b).1 (divF64by255 b).2 = b) ∧
    (∀ img : Image, (∀ b ∈ img.pixels, b < 256) →
      Image.from_f64_array (Image.as_f64_array img) = img) := by
  have key : ∀ b, b < 256 →
      mulF64by255asU8 (divF64by255 b).1 (divF64by255 b).2 = b := by decide
  refine ⟨key, fun img h => ?_⟩
  obtain ⟨pixels⟩ := img
  simp only [Image.as_f64_array, Image.from_f64_array, List.map_map, Image.mk.injEq]
  have hcong : ∀ b ∈ pixels,
      ((fun p : Nat × Nat => mulF64by255asU8 p.1 p.2) ∘ divF64by255) b = id b :=
    fun b hb => key b (h b hb)
  rw [List.map_congr_left hcong, List.map_id]

theorem normalize_denormalize_roundtrip_witness :
    (∀ b ∈ (⟨[0, 7, 128, 254, 255]⟩ : Image).pixels, b < 256) ∧
    Image.from_f64_array (Image.as_f64_array ⟨[0, 7, 128, 254, 255]⟩) =
      ⟨[0, 7, 128, 254, 255]⟩ :=
  ⟨by decide, normalize_denormalize_roundtrip.2 ⟨[0, 7, 128, 254, 255]⟩ (by decide)⟩

/-- C4 (code bug): `Mnist::load` can return `Ok` with a train split whose
label and image counts differ, because the source's train-side assert
compares `train_labels.len()` with itself.  Concretely: a train label file
declaring one label, a train image file declaring zero 28×28 images, and
empty test files load successfully into a bundle with 1 train label but 0
train images (while the test-side assert does hold). -/
theorem load_train_cardinality_unchecked :
    Mnist.load
        [0, 0, 8, 1, 0, 0, 0, 1, 7]
        [0, 0, 8, 3, 0, 0, 0, 0, 0, 0, 0, 28, 0, 0, 0, 28]
        [0, 0, 8, 1, 0, 0, 0, 0]
        [0, 0, 8, 3, 0, 0, 0, 0, 0, 0, 0, 28, 0, 0, 0, 28] =
      .ok ⟨[], [7], [], []⟩ ∧
    ([7] : List Nat).length ≠ ([] : List Image).length := by
  decide
